import Mathlib

/-!
Verification of the FaxFinity fax-classification pipeline
(`FaxFinity_Portable/faxsort_ai.py`) against its specification.

The Python code is shallowly embedded: strings are Lean `String`
(lists of characters), dictionaries with string keys and values are
association lists, the filesystem is an explicit record of directory
listings, and the external effects of the orchestrator (archive copy,
PDF rendering, the vision-model call, filesystem moves) are supplied
by an oracle record so that each code path of `process_single_pdf`
becomes a pure function of that oracle.

Python's Unicode-aware character primitives (`str.lower`, `\w`,
whitespace) are modelled on the Basic Latin and Latin-1 blocks, which
cover every alphabet appearing in the repository's string constants
and in the concrete inputs considered here.
-/

namespace FaxFinity

/-! ### Python character primitives -/

/-- Python `str` whitespace (the characters of `string.whitespace`,
which is also the ASCII part of the regex class `\s`). -/
def pyWhitespace (c : Char) : Bool :=
  c = ' ' || c = '\t' || c = '\n' || c = '\r' || c = '\x0b' || c = '\x0c'

/-- Python `str.lower`, restricted to Basic Latin and Latin-1:
`A`–`Z` map down by 32, as do `À`–`Þ` except the multiplication
sign `×`; every other character is fixed. -/
def pyLowerChar (c : Char) : Char :=
  if 'A' ≤ c && c ≤ 'Z' then Char.ofNat (c.toNat + 32)
  else if 0xC0 ≤ c.toNat && c.toNat ≤ 0xDE && c.toNat != 0xD7 then Char.ofNat (c.toNat + 32)
  else c

/-- Python `str.lower` on a whole string. -/
def pyLower (s : String) : String := ⟨s.data.map pyLowerChar⟩

/-- Membership of a character in the Python regex class `\w` with
`re.UNICODE` (letters, digits, underscore), restricted to the Basic
Latin and Latin-1 blocks: ASCII alphanumerics, `_`, and the Latin-1
letters (`ª`, `µ`, `º`, and `À`–`ÿ` except `×` and `÷`). -/
def isWordChar (c : Char) : Bool :=
  c.isAlphanum || c = '_' ||
  c.toNat = 0xAA || c.toNat = 0xB5 || c.toNat = 0xBA ||
  (0xC0 ≤ c.toNat && c.toNat ≤ 0xFF && c.toNat != 0xD7 && c.toNat != 0xF7)

/-- Strip characters satisfying `p` from both ends of a character
list (the semantics of Python `str.strip`). -/
def stripWhile (p : Char → Bool) (l : List Char) : List Char :=
  ((l.dropWhile p).reverse.dropWhile p).reverse

/-- Python `s.strip()` (no argument: strip whitespace). -/
def pyStrip (s : String) : String := ⟨stripWhile pyWhitespace s.data⟩

/-- Python `s.strip(chars)` for an explicit character set. -/
def pyStripChars (cs : List Char) (s : String) : String :=
  ⟨stripWhile (fun c => cs.contains c) s.data⟩

/-- Worker for `pySplitWs`: `acc` is the current word, reversed. -/
def splitWsGo : List Char → List Char → List (List Char)
  | [], acc => if acc.isEmpty then [] else [acc.reverse]
  | c :: rest, acc =>
    if pyWhitespace c then
      if acc.isEmpty then splitWsGo rest []
      else acc.reverse :: splitWsGo rest []
    else splitWsGo rest (c :: acc)

/-- Python `s.split()` with no argument: split on runs of whitespace,
discarding empty pieces. -/
def pySplitWs (l : List Char) : List (List Char) :=
  splitWsGo l []

/-- `startsWithList h n` holds when the list `n` is an initial
segment of `h`. -/
def startsWithList : List Char → List Char → Bool
  | _, [] => true
  | [], _ :: _ => false
  | a :: t, b :: u => a == b && startsWithList t u

/-- `hasSubstring h n`: the list `n` occurs contiguously inside `h` —
the model of Python `n in h` on strings. -/
def hasSubstring (haystack needle : List Char) : Bool :=
  match haystack with
  | [] => needle.isEmpty
  | _ :: t => startsWithList haystack needle || hasSubstring t needle

/-- Python `needle in haystack` on strings. -/
def strContains (haystack needle : String) : Bool :=
  hasSubstring haystack.data needle.data

/-! ### `sanitize_filename` (faxsort_ai.py lines 159–167) -/

/-- Characters kept by the substitution
`re.sub(r"[^\w\-.]", "_", name)`: word characters, `-` and `.`. -/
def sanitizeKeep (c : Char) : Bool := isWordChar c || c = '-' || c = '.'

/-- `re.sub(r"[^\w\-.]", "_", name)`: replace every disallowed
character by an underscore. -/
def replaceDisallowed (l : List Char) : List Char :=
  l.map fun c => if sanitizeKeep c then c else '_'

/-- `re.sub(r"_+", "_", name)`: collapse each run of underscores to a
single underscore (implemented as dropping an underscore whenever it
is immediately followed by another). -/
def collapseUnderscores : List Char → List Char
  | [] => []
  | [c] => [c]
  | a :: b :: rest =>
    if a = '_' && b = '_' then collapseUnderscores (b :: rest)
    else a :: collapseUnderscores (b :: rest)

/-- `sanitize_filename` from the source: substitute disallowed
characters, collapse repeated underscores, strip leading and trailing
underscores. -/
def sanitize_filename (name : String) : String :=
  ⟨stripWhile (fun c => c = '_') (collapseUnderscores (replaceDisallowed name.data))⟩

/-- The character set `[A-Za-z0-9_.-]` named by the specification's
sanitization property. -/
def asciiAllowed (c : Char) : Bool :=
  ('A' ≤ c && c ≤ 'Z') || ('a' ≤ c && c ≤ 'z') || ('0' ≤ c && c ≤ '9') ||
  c = '_' || c = '.' || c = '-'

/-! #### Lemmas about the sanitizer -/

theorem dropWhile_head_false {p : Char → Bool} {l : List Char} {c : Char}
    (h : (l.dropWhile p).head? = some c) : p c = false := by
  induction l with
  | nil => simp [List.dropWhile] at h
  | cons a t ih =>
    by_cases hp : p a
    · rw [List.dropWhile_cons_of_pos hp] at h; exact ih h
    · rw [List.dropWhile_cons_of_neg hp] at h
      simp only [List.head?_cons, Option.some.injEq] at h
      subst h; exact Bool.eq_false_iff.mpr hp

theorem dropWhile_eq_self_of_head {p : Char → Bool} {l : List Char}
    (h : ∀ c, l.head? = some c → p c = false) : l.dropWhile p = l := by
  cases l with
  | nil => rfl
  | cons a t =>
    have := h a rfl
    rw [List.dropWhile_cons_of_neg (by simp [this])]

theorem mem_dropWhile {p : Char → Bool} {l : List Char} {c : Char}
    (h : c ∈ l.dropWhile p) : c ∈ l := by
  induction l with
  | nil => simp [List.dropWhile] at h
  | cons a t ih =>
    by_cases hp : p a
    · rw [List.dropWhile_cons_of_pos hp] at h; exact List.mem_cons_of_mem _ (ih h)
    · rwa [List.dropWhile_cons_of_neg hp] at h

theorem mem_stripWhile {p : Char → Bool} {l : List Char} {c : Char}
    (h : c ∈ stripWhile p l) : c ∈ l := by
  unfold stripWhile at h
  rw [List.mem_reverse] at h
  have h2 := mem_dropWhile h
  rw [List.mem_reverse] at h2
  exact mem_dropWhile h2

theorem mem_collapseUnderscores {l : List Char} {c : Char}
    (h : c ∈ collapseUnderscores l) : c ∈ l := by
  induction l with
  | nil => simp [collapseUnderscores] at h
  | cons a t ih =>
    cases t with
    | nil => simpa [collapseUnderscores] using h
    | cons b r =>
      unfold collapseUnderscores at h
      by_cases hab : a = '_' && b = '_'
      · rw [if_pos hab] at h
        exact List.mem_cons_of_mem _ (ih h)
      · rw [if_neg hab] at h
        rcases List.mem_cons.mp h with h | h
        · exact List.mem_cons.mpr (Or.inl h)
        · exact List.mem_cons_of_mem _ (ih h)

theorem mem_replaceDisallowed {l : List Char} {c : Char}
    (h : c ∈ replaceDisallowed l) : sanitizeKeep c = true := by
  unfold replaceDisallowed at h
  rcases List.mem_map.mp h with ⟨a, _, ha⟩
  by_cases hk : sanitizeKeep a
  · rw [if_pos hk] at ha; rwa [← ha]
  · rw [if_neg hk] at ha; rw [← ha]; rfl

/-- Every character of the sanitizer's output is a word character, a
dot or a hyphen. -/
theorem sanitize_chars {x : String} {c : Char}
    (h : c ∈ (sanitize_filename x).data) : sanitizeKeep c = true := by
  unfold sanitize_filename at h
  exact mem_replaceDisallowed (mem_collapseUnderscores (mem_stripWhile h))

/-- The relation asserting that two adjacent characters are not both
underscores. -/
def NotUU (a b : Char) : Prop := ¬(a = '_' ∧ b = '_')

theorem head?_collapseUnderscores (l : List Char) :
    (collapseUnderscores l).head? = l.head? := by
  induction l with
  | nil => rfl
  | cons a t ih =>
    cases t with
    | nil => rfl
    | cons b r =>
      unfold collapseUnderscores
      by_cases hab : a = '_' && b = '_'
      · rw [if_pos hab, ih]
        simp only [Bool.and_eq_true, decide_eq_true_eq] at hab
        simp [hab.1, hab.2]
      · rw [if_neg hab]; rfl

theorem chain_collapseUnderscores (l : List Char) :
    List.Chain' NotUU (collapseUnderscores l) := by
  induction l with
  | nil => simp [collapseUnderscores]
  | cons a t ih =>
    cases t with
    | nil => simp [collapseUnderscores]
    | cons b r =>
      unfold collapseUnderscores
      by_cases hab : a = '_' && b = '_'
      · rw [if_pos hab]; exact ih
      · rw [if_neg hab]
        have hne : NotUU a b := by
          intro ⟨h1, h2⟩
          exact hab (by simp [h1, h2])
        rcases h : collapseUnderscores (b :: r) with _ | ⟨hd, tl⟩
        · simp
        · have hhd : (collapseUnderscores (b :: r)).head? = some b :=
            head?_collapseUnderscores (b :: r)
          rw [h] at hhd
          simp only [List.head?_cons, Option.some.injEq] at hhd
          subst hhd
          exact List.Chain'.cons hne (h ▸ ih)

theorem getLast?_dropWhile_of_ne_nil {p : Char → Bool} {l : List Char}
    (h : l.dropWhile p ≠ []) : (l.dropWhile p).getLast? = l.getLast? := by
  induction l with
  | nil => simp [List.dropWhile] at h
  | cons a t ih =>
    by_cases hp : p a
    · rw [List.dropWhile_cons_of_pos hp] at h ⊢
      cases t with
      | nil => simp [List.dropWhile] at h
      | cons b r => rw [ih h, List.getLast?_cons_cons]
    · rw [List.dropWhile_cons_of_neg hp]

theorem chain_dropWhile {p : Char → Bool} {l : List Char}
    (h : List.Chain' NotUU l) : List.Chain' NotUU (l.dropWhile p) := by
  induction l with
  | nil => simp [List.dropWhile]
  | cons a t ih =>
    by_cases hp : p a
    · rw [List.dropWhile_cons_of_pos hp]; exact ih h.tail
    · rwa [List.dropWhile_cons_of_neg hp]

theorem chain_reverse_notuu {l : List Char}
    (h : List.Chain' NotUU l) : List.Chain' NotUU l.reverse :=
  List.chain'_reverse.mpr (h.imp fun _ _ hab ⟨hb, ha⟩ => hab ⟨ha, hb⟩)

theorem chain_stripWhile {p : Char → Bool} {l : List Char}
    (h : List.Chain' NotUU l) : List.Chain' NotUU (stripWhile p l) :=
  chain_reverse_notuu (chain_dropWhile (chain_reverse_notuu (chain_dropWhile h)))

theorem collapse_eq_self {l : List Char}
    (h : List.Chain' NotUU l) : collapseUnderscores l = l := by
  induction l with
  | nil => rfl
  | cons a t ih =>
    cases t with
    | nil => rfl
    | cons b r =>
      rcases List.chain'_cons.mp h with ⟨hab, ht⟩
      unfold collapseUnderscores
      rw [if_neg (by simpa [NotUU] using hab), ih ht]

theorem replace_eq_self {l : List Char}
    (h : ∀ c ∈ l, sanitizeKeep c = true) : replaceDisallowed l = l := by
  induction l with
  | nil => rfl
  | cons a t ih =>
    unfold replaceDisallowed
    rw [List.map_cons, if_pos (h a (List.mem_cons_self a t))]
    have := ih fun c hc => h c (List.mem_cons_of_mem a hc)
    unfold replaceDisallowed at this
    rw [this]

theorem stripWhile_eq_self {p : Char → Bool} {l : List Char}
    (hh : ∀ c, l.head? = some c → p c = false)
    (hg : ∀ c, l.getLast? = some c → p c = false) : stripWhile p l = l := by
  unfold stripWhile
  rw [dropWhile_eq_self_of_head hh]
  rw [dropWhile_eq_self_of_head (by
    intro c hc
    rw [List.head?_reverse] at hc
    exact hg c hc)]
  exact List.reverse_reverse l

theorem data_mk (l : List Char) : (String.mk l).data = l := rfl

theorem string_mk_data (s : String) : String.mk s.data = s := by
  cases s; rfl

theorem sanitize_head {x : String} {c : Char}
    (h : (sanitize_filename x).data.head? = some c) : c ≠ '_' := by
  unfold sanitize_filename stripWhile at h
  rw [data_mk, List.head?_reverse] at h
  have hne : ((collapseUnderscores (replaceDisallowed x.data)).dropWhile
      (fun c => c = '_')).reverse.dropWhile (fun c => c = '_') ≠ [] := by
    intro hnil; rw [hnil] at h; simp at h
  rw [getLast?_dropWhile_of_ne_nil hne, List.getLast?_reverse] at h
  have := dropWhile_head_false h
  simpa using this

theorem sanitize_getLast {x : String} {c : Char}
    (h : (sanitize_filename x).data.getLast? = some c) : c ≠ '_' := by
  unfold sanitize_filename stripWhile at h
  rw [data_mk, List.getLast?_reverse] at h
  have := dropWhile_head_false h
  simpa using this

theorem sanitize_chain (x : String) :
    List.Chain' NotUU (sanitize_filename x).data := by
  unfold sanitize_filename
  rw [data_mk]
  exact chain_stripWhile (chain_collapseUnderscores _)

theorem sanitize_eq_self_of {s : String}
    (h1 : ∀ c ∈ s.data, sanitizeKeep c = true)
    (h2 : List.Chain' NotUU s.data)
    (h3 : ∀ c, s.data.head? = some c → c ≠ '_')
    (h4 : ∀ c, s.data.getLast? = some c → c ≠ '_') :
    sanitize_filename s = s := by
  unfold sanitize_filename
  rw [replace_eq_self h1, collapse_eq_self h2,
    stripWhile_eq_self (fun c hc => by simpa using h3 c hc)
      (fun c hc => by simpa using h4 c hc)]

theorem sanitize_idem (x : String) :
    sanitize_filename (sanitize_filename x) = sanitize_filename x :=
  sanitize_eq_self_of (fun _ hc => sanitize_chars hc) (sanitize_chain x)
    (fun _ hc => sanitize_head hc) (fun _ hc => sanitize_getLast hc)

/-- C4, as stated, is falsified at the string `"ü"`: `ü` is a Unicode
word character, so the sanitizer keeps it, yet it is outside
`[A-Za-z0-9_.-]`. -/
theorem C4_counterexample_unicode :
    sanitize_filename "ü" = "ü" ∧ 'ü' ∈ (sanitize_filename "ü").data ∧
    asciiAllowed 'ü' = false := by decide

/-- C4 (amended): sanitization is idempotent, its output consists only
of Unicode word characters (letters, digits, underscore), dots and
hyphens — not only ASCII `[A-Za-z0-9_.-]` — and the output has no
leading underscore, no trailing underscore and no two consecutive
underscores. -/
theorem C4_sanitize_properties (x : String) :
    sanitize_filename (sanitize_filename x) = sanitize_filename x ∧
    (∀ c ∈ (sanitize_filename x).data, isWordChar c = true ∨ c = '.' ∨ c = '-') ∧
    (sanitize_filename x).data.head? ≠ some '_' ∧
    (sanitize_filename x).data.getLast? ≠ some '_' ∧
    List.Chain' NotUU (sanitize_filename x).data := by
  refine ⟨sanitize_idem x, ?_, ?_, ?_, sanitize_chain x⟩
  · intro c hc
    have := sanitize_chars hc
    unfold sanitizeKeep at this
    have h2 : (isWordChar c = true ∨ c = '-') ∨ c = '.' := by simpa using this
    tauto
  · intro h
    exact sanitize_head h rfl
  · intro h
    exact sanitize_getLast h rfl

/-- Witness for C4: the amended theorem applied at a concrete string. -/
theorem C4_sanitize_properties_witness :
    sanitize_filename (sanitize_filename "Dr. med. Florian Rasche") =
      sanitize_filename "Dr. med. Florian Rasche" :=
  (C4_sanitize_properties "Dr. med. Florian Rasche").1

/-! ### Processing log store (faxsort_ai.py lines 64, 95–138) -/

def LOG_MAX_ENTRIES : Nat := 50

/-- One persisted audit record, with the exact fields written by
`add_log_entry`. -/
structure LogEntry where
  timestamp : String
  original : String
  neu : String
  status : String
  kategorie : String
  absender : String
  patient : String
  details : String
deriving DecidableEq

/-- Python `l[-n:]`: the last `n` elements of a list (the whole list
when it is shorter). -/
def lastN (n : Nat) (l : List α) : List α := l.drop (l.length - n)

/-- `save_processing_log`: persists `log_entries[-LOG_MAX_ENTRIES:]`. -/
def save_processing_log (log_entries : List LogEntry) : List LogEntry :=
  lastN LOG_MAX_ENTRIES log_entries

/-- `add_log_entry`: load the persisted log, append one entry, save.
The store (the JSON file's contents) is passed explicitly. -/
def add_log_entry (store : List LogEntry) (e : LogEntry) : List LogEntry :=
  save_processing_log (store ++ [e])

theorem length_lastN (n : Nat) (l : List α) : (lastN n l).length ≤ n := by
  unfold lastN
  rw [List.length_drop]
  omega

theorem lastN_append_lastN (n : Nat) (l : List α) (e : α) :
    lastN n (lastN n l ++ [e]) = lastN n (l ++ [e]) := by
  unfold lastN
  have hk : l.length - n ≤ l.length := Nat.sub_le _ _
  rw [← List.drop_append_of_le_length hk]
  rw [List.drop_drop]
  rw [List.length_drop, List.length_append]
  congr 1
  simp only [List.length_drop, List.length_append, List.length_cons,
    List.length_nil]
  omega

theorem foldl_add_log_entry (es : List LogEntry) :
    es.foldl add_log_entry [] = lastN LOG_MAX_ENTRIES es := by
  induction es using List.reverseRecOn with
  | nil => rfl
  | append_singleton l e ih =>
    rw [List.foldl_append, ih]
    simp only [List.foldl_cons, List.foldl_nil]
    exact lastN_append_lastN _ l e

/-- C8: the persisted processing log never exceeds 50 entries, and a
sequence of appends keeps exactly the most recent 50 in insertion
order: appending 60 entries one at a time to an empty store keeps the
last 50, dropping the 10 oldest with the relative order preserved. -/
theorem C8_log_bound (store : List LogEntry) (e : LogEntry)
    (es : List LogEntry) (h : es.length = 60) :
    (add_log_entry store e).length ≤ LOG_MAX_ENTRIES ∧
    es.foldl add_log_entry [] = es.drop 10 ∧
    (es.foldl add_log_entry []).length = 50 := by
  refine ⟨length_lastN _ _, ?_, ?_⟩
  · rw [foldl_add_log_entry]
    unfold lastN LOG_MAX_ENTRIES
    rw [h]
  · rw [foldl_add_log_entry]
    unfold lastN LOG_MAX_ENTRIES
    rw [List.length_drop, h]

/-- A list of 60 distinct concrete log entries. -/
def sixtyEntries : List LogEntry :=
  (List.range 60).map fun i => ⟨toString i, "", "", "", "", "", "", ""⟩

/-- Witness for C8: the theorem applied to a concrete 60-entry list. -/
theorem C8_log_bound_witness :
    sixtyEntries.foldl add_log_entry [] = sixtyEntries.drop 10 :=
  (C8_log_bound [] ⟨"", "", "", "", "", "", "", ""⟩ sixtyEntries (by decide)).2.1

/-! ### `_contains_own_name` (faxsort_ai.py lines 382–400) -/

/-- The stoplist of titles, abbreviations and address fragments from
`_contains_own_name`. -/
def ignore_parts : List String :=
  ["dr", "dr.", "med", "med.", "prof", "prof.", "str", "str.",
   "huttenstr", "huttenstr.", "praxis", "herr", "frau"]

/-- `name_parts`: the whitespace-separated tokens of the identity,
each stripped of leading/trailing `.` and `,`. -/
def name_parts (eigener_name : String) : List String :=
  (pySplitWs eigener_name.data).map fun p => pyStripChars ['.', ','] ⟨p⟩

/-- `significant_parts`: tokens of length at least 3 whose lowering
is not in the stoplist. -/
def significant_parts (eigener_name : String) : List String :=
  (name_parts eigener_name).filter fun p =>
    3 ≤ p.data.length && !(ignore_parts.contains (pyLower p))

/-- `_contains_own_name` from the source: the text contains (after
lowering both sides) the full identity string or one of its
significant tokens. -/
def contains_own_name (text : String) (eigener_name : String) : Bool :=
  if eigener_name.data.isEmpty || text.data.isEmpty then false
  else
    let text_lower := pyLower text
    if strContains text_lower (pyLower eigener_name) then true
    else (significant_parts eigener_name).any fun p =>
      strContains text_lower (pyLower p)

/-! ### `normalize_analysis` (faxsort_ai.py lines 403–434) -/

/-- A Python dict with string keys and values, as an association
list in insertion order. -/
abbrev Dict := List (String × String)

/-- Python `d.get(k, dflt)`; a later binding of the same key
overrides an earlier one, so the lookup scans from the right. -/
def dictGet (d : Dict) (k : String) (dflt : String) : String :=
  match d.reverse.find? (fun kv => kv.1 == k) with
  | some kv => kv.2
  | none => dflt

/-- The structured classification: the dict built by
`normalize_analysis`, which always carries exactly the keys
`kategorie`, `absender` and `patient` with string values. -/
structure Analysis where
  kategorie : String
  absender : String
  patient : String
deriving DecidableEq

/-- The first block of `normalize_analysis`: look each field up under
its two accepted key spellings, apply the field's default, and trim
whitespace. -/
def rawFields (data : Dict) : Analysis :=
  ⟨pyStrip (dictGet data "kategorie" (dictGet data "Kategorie" "Befund")),
   pyStrip (dictGet data "absender" (dictGet data "Absender" "Unbekannt")),
   pyStrip (dictGet data "patient" (dictGet data "Patient" ""))⟩

/-- The `empty_values` tuple from the source. -/
def empty_values : List String :=
  ["", "none", "null", "n/a", "-", "unbekannt",
   "nicht erkennbar", "nicht ersichtlich", "nicht angegeben",
   "keine angabe", "keine", "k.a.", "k. a.", "n.a.",
   "kein angabe", "nicht vorhanden", "nicht bekannt"]

/-- The test `not value or value.lower().strip() in empty_values`. -/
def isEmptyValue (v : String) : Bool :=
  v.data.isEmpty || empty_values.contains (pyStrip (pyLower v))

/-- The middle block of `normalize_analysis`: any field matching an
empty-value sentinel is replaced by its default. -/
def emptyNormalized (a : Analysis) : Analysis :=
  ⟨if isEmptyValue a.kategorie then "Befund" else a.kategorie,
   if isEmptyValue a.absender then "Unbekannt" else a.absender,
   if isEmptyValue a.patient then "" else a.patient⟩

/-- The final block of `normalize_analysis`: the identity filter on
the sender and patient fields. -/
def identityFiltered (eigener_name : String) (a : Analysis) : Analysis :=
  ⟨a.kategorie,
   if !eigener_name.data.isEmpty && contains_own_name a.absender eigener_name
   then "Unbekannt" else a.absender,
   if !eigener_name.data.isEmpty && contains_own_name a.patient eigener_name
   then "" else a.patient⟩

/-- `normalize_analysis` from the source, as the composition of its
three blocks. -/
def normalize_analysis (data : Dict) (eigener_name : String) : Analysis :=
  identityFiltered eigener_name (emptyNormalized (rawFields data))

theorem data_eq_nil {s : String} (h : s.data = []) : s = "" := by
  cases s
  cases h
  rfl

theorem contains_own_name_empty_text (e : String) :
    contains_own_name "" e = false := by
  unfold contains_own_name
  simp [String.data]

/-- C1: with a configured non-empty own identity, the sender field is
reset to the `"Unbekannt"` sentinel exactly when it contains the full
identity or one of its significant tokens (case-insensitive
substring), and the patient field is reset to empty under the same
test; otherwise each field is left unchanged.  In particular, for
identity `"Dr. med. Florian Rasche, Huttenstr. 6"` a sender
`"Dr. med. Florian Rasche"` becomes `"Unbekannt"` while
`"Dr. Müller"` is kept. -/
theorem C1_identity_filter :
    (∀ (data : Dict) (e : String), e ≠ "" →
      ((normalize_analysis data e).absender =
        (if contains_own_name (emptyNormalized (rawFields data)).absender e
         then "Unbekannt" else (emptyNormalized (rawFields data)).absender)) ∧
      ((normalize_analysis data e).patient =
        (if contains_own_name (emptyNormalized (rawFields data)).patient e
         then "" else (emptyNormalized (rawFields data)).patient))) ∧
    (normalize_analysis [("absender", "Dr. med. Florian Rasche")]
      "Dr. med. Florian Rasche, Huttenstr. 6").absender = "Unbekannt" ∧
    (normalize_analysis [("absender", "Dr. Müller")]
      "Dr. med. Florian Rasche, Huttenstr. 6").absender = "Dr. Müller" := by
  refine ⟨?_, by decide, by decide⟩
  intro data e he
  have hne : e.data.isEmpty = false := by
    rcases h : e.data with _ | _
    · exact absurd (data_eq_nil h) he
    · rfl
  unfold normalize_analysis identityFiltered
  rw [hne]
  constructor
  · by_cases hc : contains_own_name (emptyNormalized (rawFields data)).absender e
    · simp [hc]
    · simp [hc]
  · by_cases hc : contains_own_name (emptyNormalized (rawFields data)).patient e
    · simp [hc]
    · simp [hc]

/-- Witness for C1: the filter theorem applied at a concrete dict and
identity. -/
theorem C1_identity_filter_witness :
    (normalize_analysis [("absender", "Praxis Mustermann")] "Mustermann").absender =
      (if contains_own_name
          (emptyNormalized (rawFields [("absender", "Praxis Mustermann")])).absender
          "Mustermann"
       then "Unbekannt"
       else (emptyNormalized (rawFields [("absender", "Praxis Mustermann")])).absender) :=
  (C1_identity_filter.1 [("absender", "Praxis Mustermann")] "Mustermann"
    (by decide)).1

/-- C7: a field whose trimmed, lowered value is one of the fixed
empty-value sentinel phrases is replaced by that field's default:
fallback category `"Befund"`, sender sentinel `"Unbekannt"`, empty
patient.  The concrete cases of the claim are included. -/
theorem C7_empty_value_normalization :
    (∀ (data : Dict) (e : String),
      isEmptyValue (rawFields data).kategorie = true →
      (normalize_analysis data e).kategorie = "Befund") ∧
    (∀ (data : Dict) (e : String),
      isEmptyValue (rawFields data).absender = true →
      (normalize_analysis data e).absender = "Unbekannt") ∧
    (∀ (data : Dict) (e : String),
      isEmptyValue (rawFields data).patient = true →
      (normalize_analysis data e).patient = "") ∧
    (∀ e, (normalize_analysis [("kategorie", "k.A.")] e).kategorie = "Befund") ∧
    (∀ e, (normalize_analysis [("kategorie", "N/A")] e).kategorie = "Befund") ∧
    (∀ e, (normalize_analysis [("kategorie", "")] e).kategorie = "Befund") ∧
    (∀ e, (normalize_analysis [("kategorie", "keine Angabe")] e).kategorie = "Befund") ∧
    (∀ e, (normalize_analysis [("absender", "unbekannt")] e).absender = "Unbekannt") := by
  have hkat : ∀ (data : Dict) (e : String),
      isEmptyValue (rawFields data).kategorie = true →
      (normalize_analysis data e).kategorie = "Befund" := by
    intro data e h
    unfold normalize_analysis identityFiltered emptyNormalized
    simp [h]
  have habs : ∀ (data : Dict) (e : String),
      isEmptyValue (rawFields data).absender = true →
      (normalize_analysis data e).absender = "Unbekannt" := by
    intro data e h
    unfold normalize_analysis identityFiltered emptyNormalized
    simp [h]
  have hpat : ∀ (data : Dict) (e : String),
      isEmptyValue (rawFields data).patient = true →
      (normalize_analysis data e).patient = "" := by
    intro data e h
    unfold normalize_analysis identityFiltered emptyNormalized
    simp [h, contains_own_name_empty_text]
  refine ⟨hkat, habs, hpat, ?_, ?_, ?_, ?_, ?_⟩
  · intro e; exact hkat _ e (by decide)
  · intro e; exact hkat _ e (by decide)
  · intro e; exact hkat _ e (by decide)
  · intro e; exact hkat _ e (by decide)
  · intro e; exact habs _ e (by decide)

/-- Witness for C7: the normalization theorem applied at a concrete
dict. -/
theorem C7_empty_value_normalization_witness :
    (normalize_analysis [("kategorie", " null ")] "x").kategorie = "Befund" :=
  C7_empty_value_normalization.1 [("kategorie", " null ")] "x" (by decide)

/-! ### `generate_new_filename` (faxsort_ai.py lines 483–523) -/

/-- Python `"_".join(components)`. -/
def joinUnderscore : List String → String
  | [] => ""
  | [s] => s
  | s :: rest => s ++ "_" ++ joinUnderscore rest

/-- `generate_new_filename` from the source.  The source reads the
three fields with `dict.get` defaults, but its argument is always the
dict built by `normalize_analysis`, which carries all three keys, so
the defaults never fire and the function is total on `Analysis`. -/
def generate_new_filename (analysis : Analysis) (timestamp : String) : String :=
  let kat := analysis.kategorie
  let absender := analysis.absender
  let patient := analysis.patient
  if pyLower kat = "werbung" then
    sanitize_filename ("Werbung_" ++ timestamp ++ ".pdf")
  else if pyLower kat = "arztbrief" then
    let parts := pySplitWs absender.data
    let fa :=
      if 2 ≤ parts.length then
        (String.mk (parts.headD []), joinUnderscore ((parts.drop 1).map String.mk))
      else
        ("Arzt", if absender = "Unbekannt" then "" else absender)
    let components := ["Arztbrief", fa.1] ++
      (if fa.2 = "" then [] else [fa.2]) ++
      (if patient = "" then [] else [patient]) ++ [timestamp]
    sanitize_filename (joinUnderscore components ++ ".pdf")
  else
    let components := [kat] ++
      (if absender.data.isEmpty || absender = "Unbekannt" then [] else [absender]) ++
      (if patient = "" then [] else [patient]) ++ [timestamp]
    sanitize_filename (joinUnderscore components ++ ".pdf")

theorem string_data_ext {a b : String} (h : a.data = b.data) : a = b := by
  cases a; cases b; cases h; rfl

theorem collapse_double : ∀ (w z : List Char),
    collapseUnderscores (w ++ '_' :: '_' :: z) =
      collapseUnderscores (w ++ '_' :: z)
  | [], z => by simp [collapseUnderscores]
  | [a], z => by
    by_cases ha : a = '_'
    · subst ha
      show collapseUnderscores ('_' :: '_' :: '_' :: z) =
        collapseUnderscores ('_' :: '_' :: z)
      unfold collapseUnderscores
      simp [collapseUnderscores]
    · show collapseUnderscores (a :: '_' :: '_' :: z) =
        collapseUnderscores (a :: '_' :: z)
      unfold collapseUnderscores
      rw [if_neg (by simp [ha]), if_neg (by simp [ha])]
      simp [collapseUnderscores]
  | a :: b :: w, z => by
    show collapseUnderscores (a :: b :: (w ++ '_' :: '_' :: z)) =
      collapseUnderscores (a :: b :: (w ++ '_' :: z))
    unfold collapseUnderscores
    by_cases hab : a = '_' && b = '_'
    · rw [if_pos hab, if_pos hab]
      have h := collapse_double (b :: w) z
      simpa using h
    · rw [if_neg hab, if_neg hab]
      have h := collapse_double (b :: w) z
      simp only [List.cons_append] at h
      rw [h]

/-- Collapsing a doubled underscore inside `sanitize_filename`. -/
theorem sanitize_double_underscore (u v : List Char) :
    sanitize_filename ⟨u ++ '_' :: '_' :: v⟩ = sanitize_filename ⟨u ++ '_' :: v⟩ := by
  unfold sanitize_filename
  rw [data_mk, data_mk]
  unfold replaceDisallowed
  rw [List.map_append, List.map_append, List.map_cons, List.map_cons]
  have hu : (if sanitizeKeep '_' then '_' else '_') = '_' := if_pos (by decide)
  rw [hu]
  rw [collapse_double]

theorem data_append (a b : String) : (a ++ b).data = a.data ++ b.data := rfl

theorem ju_cons (s : String) {l : List String} (h : l ≠ []) :
    joinUnderscore (s :: l) = s ++ "_" ++ joinUnderscore l := by
  cases l with
  | nil => exact absurd rfl h
  | cons t r => rfl

/-- An empty string component in a `"_".join` disappears after
sanitization: the doubled underscore it produces is collapsed. -/
theorem sanitize_ju_empty_component (kat : String) {rest : List String}
    (h : rest ≠ []) :
    sanitize_filename (joinUnderscore (kat :: "" :: rest) ++ ".pdf") =
      sanitize_filename (joinUnderscore (kat :: rest) ++ ".pdf") := by
  rw [ju_cons kat (by simp : ("" :: rest) ≠ []), ju_cons "" h, ju_cons kat h]
  have hpd : ("" : String) ++ "_" ++ joinUnderscore rest = "_" ++ joinUnderscore rest := by
    apply string_data_ext
    simp [data_append]
  rw [hpd]
  have hR : (kat ++ "_" ++ ("_" ++ joinUnderscore rest)) ++ ".pdf" =
      ⟨kat.data ++ '_' :: '_' :: ((joinUnderscore rest).data ++ ".pdf".data)⟩ := by
    apply string_data_ext
    have h1 : ("_" : String).data = ['_'] := rfl
    simp [data_append, h1]
  have hL : (kat ++ "_" ++ joinUnderscore rest) ++ ".pdf" =
      ⟨kat.data ++ '_' :: ((joinUnderscore rest).data ++ ".pdf".data)⟩ := by
    apply string_data_ext
    have h1 : ("_" : String).data = ['_'] := rfl
    simp [data_append, h1]
  rw [hL, hR, sanitize_double_underscore]

/-- C6: the category-dependent filename scheme.  `Werbung` discards
sender and patient; `Arztbrief` with a two-token sender splits it
into specialty and name; every other category joins category, sender
(omitted when it is the `"Unbekannt"` sentinel — or empty, which
yields the same filename after sanitization), patient (omitted when
empty) and timestamp. -/
theorem C6_filename_scheme :
    (∀ (a : Analysis) (ts : String), pyLower a.kategorie = "werbung" →
      generate_new_filename a ts = sanitize_filename ("Werbung_" ++ ts ++ ".pdf")) ∧
    (generate_new_filename ⟨"Werbung", "Dr. X", "Meier"⟩ "20240101_120000" =
      "Werbung_20240101_120000.pdf") ∧
    (generate_new_filename ⟨"Arztbrief", "Kardiologe Mueller", "Schmidt"⟩
      "20240101_120000" =
      "Arztbrief_Kardiologe_Mueller_Schmidt_20240101_120000.pdf") ∧
    (∀ (a : Analysis) (ts : String), pyLower a.kategorie ≠ "werbung" →
      pyLower a.kategorie ≠ "arztbrief" →
      generate_new_filename a ts =
        sanitize_filename (joinUnderscore
          ([a.kategorie] ++
           (if a.absender = "Unbekannt" then [] else [a.absender]) ++
           (if a.patient = "" then [] else [a.patient]) ++ [ts]) ++ ".pdf")) := by
  refine ⟨?_, by decide, by decide, ?_⟩
  · intro a ts h
    unfold generate_new_filename
    rw [if_pos h]
  · intro a ts h1 h2
    unfold generate_new_filename
    rw [if_neg h1, if_neg h2]
    by_cases hu : a.absender = "Unbekannt"
    · simp [hu]
    · by_cases he : a.absender.data.isEmpty
      · have habs : a.absender = "" := data_eq_nil (by simpa using he)
        have hcode : (if a.absender.data.isEmpty || a.absender = "Unbekannt"
            then ([] : List String) else [a.absender]) = [] := by
          simp [he]
        have hclaim : (if a.absender = "Unbekannt" then ([] : List String)
            else [a.absender]) = [a.absender] := if_neg hu
        rw [hcode, hclaim, habs]
        have hrest : (if a.patient = "" then [] else [a.patient]) ++ [ts] ≠ [] := by
          by_cases hp : a.patient = "" <;> simp [hp]
        simp only [List.append_nil, List.nil_append, List.append_assoc,
          List.cons_append, List.singleton_append]
        exact (sanitize_ju_empty_component a.kategorie hrest).symm
      · simp [hu, he]

/-- Witness for C6: the scheme applied at concrete inputs through
both universally quantified parts. -/
theorem C6_filename_scheme_witness :
    generate_new_filename ⟨"Labor", "Unbekannt", ""⟩ "20240101_120000" =
      sanitize_filename (joinUnderscore
        (["Labor"] ++ (if ("Unbekannt" : String) = "Unbekannt" then [] else ["Unbekannt"]) ++
         (if ("" : String) = "" then [] else [""]) ++ ["20240101_120000"]) ++ ".pdf") :=
  C6_filename_scheme.2.2.2 ⟨"Labor", "Unbekannt", ""⟩ "20240101_120000"
    (by decide) (by decide)

/-! ### `unique_filepath` (faxsort_ai.py lines 170–182) -/

/-- `os.path.join(directory, filename)` with the POSIX separator. -/
def joinPath (dir fn : String) : String := dir ++ "/" ++ fn

/-- `os.path.splitext` for a filename without directory separators:
split at the last dot, unless every character before that dot is
itself a dot (leading dots do not start an extension). -/
def splitextData (l : List Char) : List Char × List Char :=
  match l.reverse.findIdx? (fun c => c == '.') with
  | none => (l, [])
  | some k =>
    let dotIdx := l.length - 1 - k
    if (l.take dotIdx).all (fun c => c = '.') then (l, [])
    else (l.take dotIdx, l.drop dotIdx)

/-- `os.path.splitext` on strings. -/
def splitext (fn : String) : String × String :=
  ((splitextData fn.data).1.asString, (splitextData fn.data).2.asString)

/-- One candidate of the uniqueness loop:
`os.path.join(directory, f"{base}_{counter}{ext}")`. -/
def candidatePath (dir base ext : String) (k : Nat) : String :=
  joinPath dir (base ++ "_" ++ Nat.repr k ++ ext)

/-- The `while True` loop of `unique_filepath`.  The fuel covers
`fs.length + 1` candidates; since candidates are pairwise distinct
strings, a free one is always found before the fuel runs out. -/
def uniqueLoop (fs : List String) (dir base ext : String) : Nat → Nat → String
  | 0, k => candidatePath dir base ext k
  | fuel + 1, k =>
    if candidatePath dir base ext k ∈ fs then
      uniqueLoop fs dir base ext fuel (k + 1)
    else candidatePath dir base ext k

/-- `unique_filepath` from the source; the filesystem is the list
`fs` of existing paths. -/
def unique_filepath (fs : List String) (dir fn : String) : String :=
  if joinPath dir fn ∈ fs then
    uniqueLoop fs dir (splitext fn).1 (splitext fn).2 (fs.length + 1) 1
  else joinPath dir fn

/-! #### Injectivity of the decimal representation -/

theorem toDigitsCore_acc (b : Nat) :
    ∀ (fuel n : Nat) (acc : List Char),
      Nat.toDigitsCore b fuel n acc = Nat.toDigitsCore b fuel n [] ++ acc := by
  intro fuel
  induction fuel with
  | zero => intro n acc; rfl
  | succ f ih =>
    intro n acc
    unfold Nat.toDigitsCore
    by_cases h : n / b = 0
    · simp [h]
    · simp only [h, if_neg h]
      rw [ih (n / b) (Nat.digitChar (n % b) :: acc),
        ih (n / b) [Nat.digitChar (n % b)]]
      simp

theorem toDigitsCore_fuel (b : Nat) (hb : 2 ≤ b) :
    ∀ (n : Nat), ∀ (fuel : Nat), n < fuel →
      Nat.toDigitsCore b fuel n [] = Nat.toDigitsCore b (n + 1) n [] := by
  intro n
  induction n using Nat.strong_induction_on with
  | _ n ih =>
    intro fuel hfuel
    match fuel, hfuel with
    | f + 1, hfuel =>
      show Nat.toDigitsCore b (f + 1) n [] = Nat.toDigitsCore b (n + 1) n []
      unfold Nat.toDigitsCore
      by_cases h : n / b = 0
      · simp [h]
      · simp only [h, if_neg h]
        have hb1 : 1 < b := hb
        have hn0 : 0 < n := by
          rcases Nat.eq_zero_or_pos n with h0 | h0
          · subst h0; simp at h
          · exact h0
        have hdiv : n / b < n := Nat.div_lt_self hn0 hb1
        have h1 : n / b < f := by omega
        rw [toDigitsCore_acc b f (n / b), toDigitsCore_acc b n (n / b)]
        rw [ih (n / b) hdiv f h1, ih (n / b) hdiv n (by omega)]

theorem toDigits_unfold (n : Nat) :
    Nat.toDigits 10 n =
      if n < 10 then [Nat.digitChar n]
      else Nat.toDigits 10 (n / 10) ++ [Nat.digitChar (n % 10)] := by
  show Nat.toDigitsCore 10 (n + 1) n [] = _
  unfold Nat.toDigitsCore
  by_cases h : n / 10 = 0
  · have hlt : n < 10 := by omega
    simp [h, hlt, Nat.mod_eq_of_lt hlt]
  · have hge : ¬ n < 10 := by
      intro hc
      exact h (Nat.div_eq_of_lt hc)
    simp only [h, if_neg h, if_neg hge]
    rw [toDigitsCore_acc 10 n (n / 10)]
    have hn0 : 0 < n := by omega
    have hdiv : n / 10 < n := Nat.div_lt_self hn0 (by omega)
    rw [toDigitsCore_fuel 10 (by omega) (n / 10) n hdiv]
    rfl

/-- The numeric value of a decimal digit character. -/
def digitVal (c : Char) : Nat := c.toNat - 48

/-- Decode a decimal digit list, most significant first. -/
def decDigitsAux (acc : Nat) : List Char → Nat
  | [] => acc
  | c :: cs => decDigitsAux (acc * 10 + digitVal c) cs

theorem decDigitsAux_append (xs : List Char) :
    ∀ (acc : Nat) (c : Char),
      decDigitsAux acc (xs ++ [c]) = decDigitsAux acc xs * 10 + digitVal c := by
  induction xs with
  | nil => intro acc c; rfl
  | cons a t ih => intro acc c; exact ih (acc * 10 + digitVal a) c

theorem digitVal_digitChar : ∀ m, m < 10 → digitVal (Nat.digitChar m) = m := by
  decide

theorem decDigitsAux_nil (acc : Nat) : decDigitsAux acc [] = acc := rfl

theorem decDigitsAux_cons (acc : Nat) (c : Char) (cs : List Char) :
    decDigitsAux acc (c :: cs) = decDigitsAux (acc * 10 + digitVal c) cs := rfl

theorem decDigits_toDigits :
    ∀ n, decDigitsAux 0 (Nat.toDigits 10 n) = n := by
  intro n
  induction n using Nat.strong_induction_on with
  | _ n ih =>
    rw [toDigits_unfold]
    by_cases h : n < 10
    · rw [if_pos h, decDigitsAux_cons, decDigitsAux_nil, digitVal_digitChar n h]
      omega
    · rw [if_neg h, decDigitsAux_append]
      have hdiv : n / 10 < n := Nat.div_lt_self (by omega) (by omega)
      rw [ih (n / 10) hdiv, digitVal_digitChar (n % 10) (Nat.mod_lt n (by omega))]
      omega

theorem nat_repr_inj {a b : Nat} (h : Nat.repr a = Nat.repr b) : a = b := by
  have hd : Nat.toDigits 10 a = Nat.toDigits 10 b := congrArg String.data h
  calc a = decDigitsAux 0 (Nat.toDigits 10 a) := (decDigits_toDigits a).symm
    _ = decDigitsAux 0 (Nat.toDigits 10 b) := by rw [hd]
    _ = b := decDigits_toDigits b

theorem uniqueLoop_succ (fs : List String) (dir base ext : String)
    (fuel k : Nat) :
    uniqueLoop fs dir base ext (fuel + 1) k =
      if candidatePath dir base ext k ∈ fs then
        uniqueLoop fs dir base ext fuel (k + 1)
      else candidatePath dir base ext k := rfl

theorem candidatePath_inj {dir base ext : String} {j k : Nat}
    (h : candidatePath dir base ext j = candidatePath dir base ext k) : j = k := by
  unfold candidatePath joinPath at h
  have hd := congrArg String.data h
  simp only [data_append, List.append_assoc] at hd
  have h1 := List.append_cancel_left hd
  have h2 := List.append_cancel_left h1
  have h3 := List.append_cancel_left h2
  have h4 := List.append_cancel_left h3
  have h5 := List.append_cancel_right h4
  exact nat_repr_inj (string_data_ext h5)

/-- Pigeonhole: among the first `fs.length + 1` candidates at least
one is not in `fs`, because they are pairwise distinct. -/
theorem exists_free_candidate (fs : List String) (dir base ext : String) :
    ∃ k, 1 ≤ k ∧ k ≤ fs.length + 1 ∧ candidatePath dir base ext k ∉ fs := by
  by_contra hc
  push_neg at hc
  have hsub : ((List.range (fs.length + 1)).map
      (fun i => candidatePath dir base ext (i + 1))) ⊆ fs := by
    intro x hx
    rcases List.mem_map.mp hx with ⟨i, hi, rfl⟩
    have hi2 := List.mem_range.mp hi
    exact hc (i + 1) (by omega) (by omega)
  have hnodup : ((List.range (fs.length + 1)).map
      (fun i => candidatePath dir base ext (i + 1))).Nodup := by
    refine List.Nodup.map ?_ (List.nodup_range _)
    intro a b hab
    have := candidatePath_inj hab
    omega
  have hlen := (List.subperm_of_subset hnodup hsub).length_le
  rw [List.length_map, List.length_range] at hlen
  omega

theorem uniqueLoop_spec (fs : List String) (dir base ext : String) :
    ∀ (fuel k : Nat),
      (∃ j, k ≤ j ∧ j < k + fuel ∧ candidatePath dir base ext j ∉ fs) →
      ∃ m, k ≤ m ∧
        uniqueLoop fs dir base ext fuel k = candidatePath dir base ext m ∧
        candidatePath dir base ext m ∉ fs ∧
        ∀ j, k ≤ j → j < m → candidatePath dir base ext j ∈ fs := by
  intro fuel
  induction fuel with
  | zero =>
    intro k ⟨j, hj1, hj2, _⟩
    omega
  | succ f ih =>
    intro k ⟨j, hj1, hj2, hj3⟩
    by_cases hk : candidatePath dir base ext k ∈ fs
    · have hjk : k + 1 ≤ j := by
        rcases Nat.eq_or_lt_of_le hj1 with he | hl
        · exact absurd (he ▸ hk) hj3
        · omega
      obtain ⟨m, hm1, hm2, hm3, hm4⟩ := ih (k + 1) ⟨j, hjk, by omega, hj3⟩
      refine ⟨m, by omega, ?_, hm3, ?_⟩
      · rw [uniqueLoop_succ, if_pos hk]
        exact hm2
      · intro i hi1 hi2
        rcases Nat.eq_or_lt_of_le hi1 with he | hl
        · rw [← he]; exact hk
        · exact hm4 i (by omega) hi2
    · refine ⟨k, Nat.le_refl k, ?_, hk, ?_⟩
      · rw [uniqueLoop_succ, if_neg hk]
      · intro i hi1 hi2
        omega

/-- C5: `unique_path` returns `directory/filename` when that path is
absent; otherwise it returns the candidate `base_k.ext` for the
smallest counter `k ≥ 1` whose path is absent.  Either way the result
is absent from the (finite) directory listing, hence distinct from
every existing path; the function is deterministic in the listing. -/
theorem C5_unique_path (fs : List String) (dir fn : String) :
    (joinPath dir fn ∉ fs → unique_filepath fs dir fn = joinPath dir fn) ∧
    unique_filepath fs dir fn ∉ fs ∧
    (joinPath dir fn ∈ fs →
      ∃ k, 1 ≤ k ∧
        unique_filepath fs dir fn =
          candidatePath dir (splitext fn).1 (splitext fn).2 k ∧
        candidatePath dir (splitext fn).1 (splitext fn).2 k ∉ fs ∧
        ∀ j, 1 ≤ j → j < k →
          candidatePath dir (splitext fn).1 (splitext fn).2 j ∈ fs) := by
  by_cases hmem : joinPath dir fn ∈ fs
  · obtain ⟨kf, hk1, hk2, hk3⟩ :=
      exists_free_candidate fs dir (splitext fn).1 (splitext fn).2
    obtain ⟨m, hm1, hm2, hm3, hm4⟩ :=
      uniqueLoop_spec fs dir (splitext fn).1 (splitext fn).2 (fs.length + 1) 1
        ⟨kf, hk1, by omega, hk3⟩
    refine ⟨fun h => absurd hmem h, ?_, fun _ => ⟨m, hm1, ?_, hm3, hm4⟩⟩
    · unfold unique_filepath
      rw [if_pos hmem, hm2]
      exact hm3
    · unfold unique_filepath
      rw [if_pos hmem]
      exact hm2
  · refine ⟨fun _ => ?_, ?_, fun h => absurd h hmem⟩
    · unfold unique_filepath
      rw [if_neg hmem]
    · unfold unique_filepath
      rw [if_neg hmem]
      exact hmem

/-- Witness for C5: a directory holding `a.pdf` and `a_1.pdf`; the
resolver returns a path absent from it. -/
theorem C5_unique_path_witness :
    joinPath "d" "a.pdf" ∈ ["d/a.pdf", "d/a_1.pdf"] ∧
    unique_filepath ["d/a.pdf", "d/a_1.pdf"] "d" "a.pdf" ∉
      ["d/a.pdf", "d/a_1.pdf"] :=
  ⟨by decide, (C5_unique_path ["d/a.pdf", "d/a_1.pdf"] "d" "a.pdf").2.1⟩

/-! ### Pipeline orchestrator `process_single_pdf` (lines 529–616) -/

/-- `os.path.basename` (POSIX separator). -/
def basename (p : String) : String := (p.splitOn "/").getLastD p

/-- The three well-known subfolders created by `ensure_subdirs`
(directory creation itself is a filesystem no-op in the model). -/
structure Dirs where
  archiv : String
  umbenannt : String
  fehler : String

/-- `ensure_subdirs` from the source. -/
def ensure_subdirs (base : String) : Dirs :=
  ⟨joinPath base "Archiv", joinPath base "Umbenannt", joinPath base "Fehler"⟩

/-- The filesystem state: the path listings of the four folders and
the persisted processing log. -/
structure FS where
  inbound : List String
  archiv : List String
  umbenannt : List String
  fehler : List String
  log : List LogEntry
deriving DecidableEq

/-- The result dict of `process_single_pdf` (`details` is set only on
backup failure, as in the source). -/
structure PResult where
  original : String
  status : String
  new_name : String
  details : String
deriving DecidableEq

/-- The per-document external effects, supplied as an oracle: the two
`datetime.now()` reads, whether `shutil.copy2` into the archive
succeeds (with the exception text on failure), whether
`pdf_to_image` yields an image, the analysis result delivered by
`analyze_image_with_ollama` (already parsed and normalized; `none` on
connection error, timeout, or parse failure), whether the
`shutil.move` into the errors folder succeeds (its failure is
swallowed by a bare `except: pass` in the source), and whether the
final `shutil.move` into the filed folder succeeds. -/
structure Env where
  ts : String
  logTs : String
  copyOk : Bool
  copyErr : String
  image : Bool
  analysis : Option Analysis
  errMoveOk : Bool
  moveOk : Bool
  moveErr : String

/-- `process_single_pdf` from the source, as a pure function of the
oracle and the filesystem state.  A failed move leaves the filesystem
unchanged (the source swallows the exception or logs it). -/
def process_single_pdf (env : Env) (dirs : Dirs) (pdf_path : String)
    (fs : FS) : FS × PResult :=
  let original_name := basename pdf_path
  if !env.copyOk then
    (⟨fs.inbound, fs.archiv, fs.umbenannt, fs.fehler,
      add_log_entry fs.log
        ⟨env.logTs, original_name, "", "❌ Backup-Fehler", "", "", "", env.copyErr⟩⟩,
     ⟨original_name, "backup_error", "", env.copyErr⟩)
  else
    let archive_path :=
      unique_filepath fs.archiv dirs.archiv (env.ts ++ "_" ++ original_name)
    let archiv1 := fs.archiv ++ [archive_path]
    if !env.image then
      let error_dest := unique_filepath fs.fehler dirs.fehler
        ("KONVERTIERUNG_" ++ env.ts ++ "_" ++ original_name)
      let inbound2 := if env.errMoveOk then fs.inbound.erase pdf_path else fs.inbound
      let fehler2 := if env.errMoveOk then fs.fehler ++ [error_dest] else fs.fehler
      (⟨inbound2, archiv1, fs.umbenannt, fehler2,
        add_log_entry fs.log
          ⟨env.logTs, original_name, "", "❌ Konvertierungsfehler", "", "", "",
           "PDF→Bild fehlgeschlagen"⟩⟩,
       ⟨original_name, "conversion_error", "", ""⟩)
    else
      match env.analysis with
      | none =>
        let error_dest := unique_filepath fs.fehler dirs.fehler
          ("ANALYSE_" ++ env.ts ++ "_" ++ original_name)
        let inbound2 := if env.errMoveOk then fs.inbound.erase pdf_path else fs.inbound
        let fehler2 := if env.errMoveOk then fs.fehler ++ [error_dest] else fs.fehler
        (⟨inbound2, archiv1, fs.umbenannt, fehler2,
          add_log_entry fs.log
            ⟨env.logTs, original_name, basename error_dest,
             "⚠️ Analyse-Fehler → /Fehler", "", "", "",
             "Ollama nicht erreichbar oder Parsing fehlgeschlagen"⟩⟩,
         ⟨original_name, "analysis_error", "", ""⟩)
      | some analysis =>
        let new_filename := generate_new_filename analysis env.ts
        let dest_path := unique_filepath fs.umbenannt dirs.umbenannt new_filename
        if env.moveOk then
          let final_name := basename dest_path
          (⟨fs.inbound.erase pdf_path, archiv1, fs.umbenannt ++ [dest_path],
            fs.fehler,
            add_log_entry fs.log
              ⟨env.logTs, original_name, final_name, "✅ Erfolgreich",
               analysis.kategorie, analysis.absender, analysis.patient, ""⟩⟩,
           ⟨original_name, "success", final_name, ""⟩)
        else
          (⟨fs.inbound, archiv1, fs.umbenannt, fs.fehler,
            add_log_entry fs.log
              ⟨env.logTs, original_name, new_filename, "❌ Verschiebe-Fehler",
               "", "", "", env.moveErr⟩⟩,
           ⟨original_name, "move_error", "", env.moveErr⟩)

/-- C9 (amended): when the archive copy fails, processing stops with
status `backup_error`, exactly one log entry is written, and all four
folders — the inbound folder in particular — are left untouched.
However, this is not the only stage whose failure leaves the file in
inbound: a failure of the final filing move also leaves it there (as
does a failure of the error-folder move itself). -/
theorem C9_backup_failure :
    (∀ (env : Env) (dirs : Dirs) (p : String) (fs : FS),
      env.copyOk = false →
      (process_single_pdf env dirs p fs).2.status = "backup_error" ∧
      (process_single_pdf env dirs p fs).1.inbound = fs.inbound ∧
      (process_single_pdf env dirs p fs).1.archiv = fs.archiv ∧
      (process_single_pdf env dirs p fs).1.umbenannt = fs.umbenannt ∧
      (process_single_pdf env dirs p fs).1.fehler = fs.fehler ∧
      (∃ e, (process_single_pdf env dirs p fs).1.log = add_log_entry fs.log e)) ∧
    (∀ (env : Env) (dirs : Dirs) (p : String) (fs : FS) (a : Analysis),
      env.copyOk = true → env.image = true → env.analysis = some a →
      env.moveOk = false →
      (process_single_pdf env dirs p fs).2.status = "move_error" ∧
      (process_single_pdf env dirs p fs).1.inbound = fs.inbound ∧
      (process_single_pdf env dirs p fs).1.fehler = fs.fehler ∧
      (∃ e, (process_single_pdf env dirs p fs).1.log = add_log_entry fs.log e)) := by
  constructor
  · intro env dirs p fs h
    unfold process_single_pdf
    simp [h]
  · intro env dirs p fs a h1 h2 h3 h4
    unfold process_single_pdf
    simp [h1, h2, h3, h4]

/-- Witness for C9: the amended theorem applied at a concrete oracle
and filesystem with a failing archive copy. -/
theorem C9_backup_failure_witness :
    (process_single_pdf ⟨"t", "lt", false, "disk full", true, none, true, true, ""⟩
      (ensure_subdirs "base") "in/doc.pdf" ⟨["in/doc.pdf"], [], [], [], []⟩).1.inbound =
      ["in/doc.pdf"] :=
  (C9_backup_failure.1 ⟨"t", "lt", false, "disk full", true, none, true, true, ""⟩
    (ensure_subdirs "base") "in/doc.pdf" ⟨["in/doc.pdf"], [], [], [], []⟩ rfl).2.1

/-- C9, as stated, is false: its final clause says the archive-copy
stage is the only one whose failure does not remove the file from
inbound, but a failing final filing move (status `move_error`) also
leaves the file in inbound. -/
theorem C9_counterexample_move_error :
    (process_single_pdf
      ⟨"20240101_120000", "2024-01-01 12:00:00", true, "", true,
       some ⟨"Labor", "Dr. X", "Meier"⟩, true, false, "permission denied"⟩
      (ensure_subdirs "base") "in/doc.pdf"
      ⟨["in/doc.pdf"], [], [], [], []⟩).2.status = "move_error" ∧
    (process_single_pdf
      ⟨"20240101_120000", "2024-01-01 12:00:00", true, "", true,
       some ⟨"Labor", "Dr. X", "Meier"⟩, true, false, "permission denied"⟩
      (ensure_subdirs "base") "in/doc.pdf"
      ⟨["in/doc.pdf"], [], [], [], []⟩).2.status ≠ "backup_error" ∧
    "in/doc.pdf" ∈ (process_single_pdf
      ⟨"20240101_120000", "2024-01-01 12:00:00", true, "", true,
       some ⟨"Labor", "Dr. X", "Meier"⟩, true, false, "permission denied"⟩
      (ensure_subdirs "base") "in/doc.pdf"
      ⟨["in/doc.pdf"], [], [], [], []⟩).1.inbound := by
  refine ⟨?_, ?_, ?_⟩ <;> decide

/-- C2 (amended): every terminal path of the orchestrator writes
exactly one log entry.  When the archive copy and the relevant
follow-up move succeed, the document ends in exactly one place: on
success it is moved into the filed folder and removed from inbound
(with the archive copy the only copy made); on conversion or
analysis failure it is moved into the errors folder and removed from
inbound.  When the archive copy fails, or the final filing move
fails (or the error-folder move itself fails), the original remains
in inbound. -/
theorem C2_terminal_outcomes :
    (∀ (env : Env) (dirs : Dirs) (p : String) (fs : FS),
      ∃ e, (process_single_pdf env dirs p fs).1.log = add_log_entry fs.log e) ∧
    (∀ (env : Env) (dirs : Dirs) (p : String) (fs : FS) (a : Analysis),
      env.copyOk = true → env.image = true → env.analysis = some a →
      env.moveOk = true →
      (process_single_pdf env dirs p fs).2.status = "success" ∧
      (process_single_pdf env dirs p fs).1.inbound = fs.inbound.erase p ∧
      (∃ dest, (process_single_pdf env dirs p fs).1.umbenannt =
          fs.umbenannt ++ [dest] ∧ dest ∉ fs.umbenannt) ∧
      (∃ arch, (process_single_pdf env dirs p fs).1.archiv = fs.archiv ++ [arch]) ∧
      (process_single_pdf env dirs p fs).1.fehler = fs.fehler) ∧
    (∀ (env : Env) (dirs : Dirs) (p : String) (fs : FS),
      env.copyOk = true → env.image = false → env.errMoveOk = true →
      (process_single_pdf env dirs p fs).2.status = "conversion_error" ∧
      (process_single_pdf env dirs p fs).1.inbound = fs.inbound.erase p ∧
      (∃ dest, (process_single_pdf env dirs p fs).1.fehler =
          fs.fehler ++ [dest] ∧ dest ∉ fs.fehler) ∧
      (process_single_pdf env dirs p fs).1.umbenannt = fs.umbenannt) ∧
    (∀ (env : Env) (dirs : Dirs) (p : String) (fs : FS),
      env.copyOk = true → env.image = true → env.analysis = none →
      env.errMoveOk = true →
      (process_single_pdf env dirs p fs).2.status = "analysis_error" ∧
      (process_single_pdf env dirs p fs).1.inbound = fs.inbound.erase p ∧
      (∃ dest, (process_single_pdf env dirs p fs).1.fehler =
          fs.fehler ++ [dest] ∧ dest ∉ fs.fehler) ∧
      (process_single_pdf env dirs p fs).1.umbenannt = fs.umbenannt) := by
  refine ⟨?_, ?_, ?_, ?_⟩
  · intro env dirs p fs
    unfold process_single_pdf
    by_cases hc : env.copyOk
    · by_cases hi : env.image
      · rcases ha : env.analysis with _ | a
        · simp [hc, hi, ha]
        · by_cases hm : env.moveOk
          · simp [hc, hi, ha, hm]
          · simp [hc, hi, ha, hm]
      · simp [hc, hi]
    · simp [hc]
  · intro env dirs p fs a h1 h2 h3 h4
    unfold process_single_pdf
    refine ⟨by simp [h1, h2, h3, h4], by simp [h1, h2, h3, h4], ?_, ?_, ?_⟩
    · refine ⟨unique_filepath fs.umbenannt dirs.umbenannt
        (generate_new_filename a env.ts), ?_, ?_⟩
      · simp [h1, h2, h3, h4]
      · exact (C5_unique_path fs.umbenannt dirs.umbenannt
          (generate_new_filename a env.ts)).2.1
    · refine ⟨unique_filepath fs.archiv dirs.archiv
        (env.ts ++ "_" ++ basename p), ?_⟩
      simp [h1, h2, h3, h4]
    · simp [h1, h2, h3, h4]
  · intro env dirs p fs h1 h2 h3
    unfold process_single_pdf
    refine ⟨by simp [h1, h2, h3], by simp [h1, h2, h3], ?_, by simp [h1, h2, h3]⟩
    refine ⟨unique_filepath fs.fehler dirs.fehler
      ("KONVERTIERUNG_" ++ env.ts ++ "_" ++ basename p), ?_, ?_⟩
    · simp [h1, h2, h3]
    · exact (C5_unique_path fs.fehler dirs.fehler
        ("KONVERTIERUNG_" ++ env.ts ++ "_" ++ basename p)).2.1
  · intro env dirs p fs h1 h2 h3 h4
    unfold process_single_pdf
    refine ⟨by simp [h1, h2, h3, h4], by simp [h1, h2, h3, h4], ?_,
      by simp [h1, h2, h3, h4]⟩
    refine ⟨unique_filepath fs.fehler dirs.fehler
      ("ANALYSE_" ++ env.ts ++ "_" ++ basename p), ?_, ?_⟩
    · simp [h1, h2, h3, h4]
    · exact (C5_unique_path fs.fehler dirs.fehler
        ("ANALYSE_" ++ env.ts ++ "_" ++ basename p)).2.1

/-- Witness for C2: the success clause applied at a concrete oracle
and filesystem. -/
theorem C2_terminal_outcomes_witness :
    (process_single_pdf
      ⟨"20240101_120000", "2024-01-01 12:00:00", true, "", true,
       some ⟨"Labor", "Dr. X", "Meier"⟩, true, true, ""⟩
      (ensure_subdirs "base") "in/doc.pdf"
      ⟨["in/doc.pdf"], [], [], [], []⟩).2.status = "success" :=
  (C2_terminal_outcomes.2.1
    ⟨"20240101_120000", "2024-01-01 12:00:00", true, "", true,
     some ⟨"Labor", "Dr. X", "Meier"⟩, true, true, ""⟩
    (ensure_subdirs "base") "in/doc.pdf"
    ⟨["in/doc.pdf"], [], [], [], []⟩ ⟨"Labor", "Dr. X", "Meier"⟩
    rfl rfl rfl rfl).1

/-- C2, as stated, is false: when the archive copy fails the document
terminates in neither the filed folder nor the errors folder, and the
original still exists in the inbound folder. -/
theorem C2_counterexample_backup_failure :
    (process_single_pdf ⟨"t", "lt", false, "disk full", true, none, true, true, ""⟩
      (ensure_subdirs "base") "in/doc.pdf"
      ⟨["in/doc.pdf"], [], [], [], []⟩).1.umbenannt = [] ∧
    (process_single_pdf ⟨"t", "lt", false, "disk full", true, none, true, true, ""⟩
      (ensure_subdirs "base") "in/doc.pdf"
      ⟨["in/doc.pdf"], [], [], [], []⟩).1.fehler = [] ∧
    "in/doc.pdf" ∈ (process_single_pdf
      ⟨"t", "lt", false, "disk full", true, none, true, true, ""⟩
      (ensure_subdirs "base") "in/doc.pdf"
      ⟨["in/doc.pdf"], [], [], [], []⟩).1.inbound := by
  refine ⟨?_, ?_, ?_⟩ <;> decide

/-! ### `parse_ollama_response` (lines 293–337): escape repair and
JSON extraction -/

def isHexDigitCh (c : Char) : Bool :=
  ('0' ≤ c && c ≤ '9') || ('a' ≤ c && c ≤ 'f') || ('A' ≤ c && c ≤ 'F')

/-- `re.sub(r"\\u\\u([0-9a-fA-F]{4})", r"\\u\1", raw)`: collapse a
doubled `\u` escape.  The scanner advances one character on a failed
match attempt and past the whole match on success, as `re.sub`
does. -/
def repairDoubleU1Go : Nat → List Char → List Char
  | 0, l => l
  | _, [] => []
  | fuel + 1, '\\' :: rest1 =>
    match rest1 with
    | 'u' :: '\\' :: 'u' :: h1 :: h2 :: h3 :: h4 :: rest =>
      if isHexDigitCh h1 && isHexDigitCh h2 && isHexDigitCh h3 && isHexDigitCh h4 then
        '\\' :: 'u' :: h1 :: h2 :: h3 :: h4 :: repairDoubleU1Go fuel rest
      else '\\' :: repairDoubleU1Go fuel rest1
    | _ => '\\' :: repairDoubleU1Go fuel rest1
  | fuel + 1, c :: rest => c :: repairDoubleU1Go fuel rest

/-- The first repair substitution, with fuel covering the scan. -/
def repairDoubleU1 (l : List Char) : List Char := repairDoubleU1Go l.length l

/-- Worker for `repairDoubleU2` with explicit fuel (the scan position
advances at least one character per step). -/
def repairDoubleU2Go : Nat → List Char → List Char
  | 0, l => l
  | _, [] => []
  | fuel + 1, '\\' :: rest1 =>
    match rest1 with
    | 'u' :: '\\' :: 'u' :: h1 :: h2 :: h3 :: h4 :: rest =>
      if isHexDigitCh h1 && isHexDigitCh h2 && isHexDigitCh h3 && isHexDigitCh h4 then
        repairDoubleU2Go fuel ('\\' :: 'u' :: h1 :: h2 :: h3 :: h4 :: rest)
      else '\\' :: repairDoubleU2Go fuel rest1
    | _ => '\\' :: repairDoubleU2Go fuel rest1
  | fuel + 1, c :: rest => c :: repairDoubleU2Go fuel rest

/-- `re.sub(r"\\u(?=\\u[0-9a-fA-F]{4})", "", cleaned)`: drop a `\u`
that is immediately followed by a well-formed `\uXXXX` escape (the
lookahead is not consumed). -/
def repairDoubleU2 (l : List Char) : List Char := repairDoubleU2Go l.length l

/-- JSON whitespace accepted by `json.loads` between tokens. -/
def jsonWs (c : Char) : Bool := c = ' ' || c = '\t' || c = '\n' || c = '\r'

def jsonSkipWs (l : List Char) : List Char := l.dropWhile jsonWs

def hexVal (c : Char) : Nat :=
  if '0' ≤ c && c ≤ '9' then c.toNat - 48
  else if 'a' ≤ c && c ≤ 'f' then c.toNat - 87
  else c.toNat - 55

/-- A JSON string body after the opening quote: returns the decoded
content and the text after the closing quote.  Handles the standard
escapes and `\uXXXX`; bare control characters are rejected as in
strict `json.loads`. -/
def jsonString : List Char → Option (List Char × List Char)
  | [] => none
  | '"' :: rest => some ([], rest)
  | '\\' :: rest =>
    match rest with
    | '"' :: r => (jsonString r).map fun p => ('"' :: p.1, p.2)
    | '\\' :: r => (jsonString r).map fun p => ('\\' :: p.1, p.2)
    | '/' :: r => (jsonString r).map fun p => ('/' :: p.1, p.2)
    | 'n' :: r => (jsonString r).map fun p => ('\n' :: p.1, p.2)
    | 't' :: r => (jsonString r).map fun p => ('\t' :: p.1, p.2)
    | 'r' :: r => (jsonString r).map fun p => ('\r' :: p.1, p.2)
    | 'b' :: r => (jsonString r).map fun p => ('\x08' :: p.1, p.2)
    | 'f' :: r => (jsonString r).map fun p => ('\x0c' :: p.1, p.2)
    | 'u' :: h1 :: h2 :: h3 :: h4 :: r =>
      if isHexDigitCh h1 && isHexDigitCh h2 && isHexDigitCh h3 && isHexDigitCh h4 then
        (jsonString r).map fun p =>
          (Char.ofNat (((hexVal h1 * 16 + hexVal h2) * 16 + hexVal h3) * 16 + hexVal h4)
            :: p.1, p.2)
      else none
    | _ => none
  | c :: rest =>
    if c.toNat < 0x20 then none
    else (jsonString rest).map fun p => (c :: p.1, p.2)

/-- The members of a JSON object, after the opening brace: string
keys, string values (this model covers flat string-valued objects —
the shape the prompt requests; other JSON values are treated as a
decode failure, which the caller handles identically to a non-dict
or undecodable payload). -/
def jsonMembersGo : Nat → List Char → Option (Dict × List Char)
  | 0, _ => none
  | fuel + 1, s =>
    match jsonSkipWs s with
    | '"' :: r1 =>
      match jsonString r1 with
      | none => none
      | some (key, r2) =>
        match jsonSkipWs r2 with
        | ':' :: r3 =>
          match jsonSkipWs r3 with
          | '"' :: r4 =>
            match jsonString r4 with
            | none => none
            | some (val, r5) =>
              match jsonSkipWs r5 with
              | ',' :: r6 =>
                (jsonMembersGo fuel r6).map fun p =>
                  ((⟨key⟩, ⟨val⟩) :: p.1, p.2)
              | '}' :: r6 => some ([(⟨key⟩, ⟨val⟩)], r6)
              | _ => none
          | _ => none
        | _ => none
    | _ => none

/-- Model of `json.loads` followed by the `isinstance(data, dict)`
check: succeeds exactly on a full-text flat JSON object, with only
whitespace around it. -/
def jsonParseObject (s : List Char) : Option Dict :=
  match jsonSkipWs s with
  | '{' :: r =>
    match jsonSkipWs r with
    | '}' :: r2 => if (jsonSkipWs r2).isEmpty then some [] else none
    | _ =>
      match jsonMembersGo (r.length + 1) r with
      | some (d, rest) => if (jsonSkipWs rest).isEmpty then some d else none
      | none => none
  | _ => none

/-- One attempt of `\{[^{}]*\}` at the current position (the text
must start with `{`): greedy run of non-brace characters, then `}`. -/
def findBraceBlocks : Nat → List Char → List (List Char)
  | 0, _ => []
  | _, [] => []
  | fuel + 1, '{' :: rest =>
    let body := rest.takeWhile fun c => !(c = '{' || c = '}')
    let rest2 := rest.drop body.length
    match rest2 with
    | '}' :: tail => ('{' :: (body ++ ['}'])) :: findBraceBlocks fuel tail
    | _ => findBraceBlocks fuel rest2
  | fuel + 1, _ :: rest => findBraceBlocks fuel rest

/-- One attempt of a fenced pattern
(tag, then `\s*`, then `\{[^{}]*\}` as the group, then `\s*`, then
the closing fence) at the current position.  The whitespace stars are
greedy, and since neither `{` nor a fence character is whitespace the
backtracking collapses to maximal skips. -/
def matchFencedAt (tag : List Char) (s : List Char) :
    Option (List Char × List Char) :=
  if startsWithList s tag then
    let s2 := (s.drop tag.length).dropWhile pyWhitespace
    match s2 with
    | '{' :: rest =>
      let body := rest.takeWhile fun c => !(c = '{' || c = '}')
      let rest2 := rest.drop body.length
      match rest2 with
      | '}' :: tail =>
        let tail2 := tail.dropWhile pyWhitespace
        if startsWithList tail2 "```".data then
          some ('{' :: (body ++ ['}']), tail2.drop 3)
        else none
      | _ => none
    | _ => none
  else none

/-- `re.findall` for a fenced pattern: leftmost, non-overlapping. -/
def findFenced (tag : List Char) : Nat → List Char → List (List Char)
  | 0, _ => []
  | _, [] => []
  | fuel + 1, s =>
    match matchFencedAt tag s with
    | some (g, after) => g :: findFenced tag fuel after
    | none =>
      match s with
      | [] => []
      | _ :: rest => findFenced tag fuel rest

/-- All JSON candidate substrings of one text, in the source's
pattern order: language-tagged fenced block, untagged fenced block,
bare `{...}` object. -/
def json_candidates (text : List Char) : List (List Char) :=
  findFenced "```json".data text.length text ++
  findFenced "```".data text.length text ++
  findBraceBlocks text.length text

/-! ### `_parse_markdown_response` (lines 340–379) -/

/-- Case-insensitive initial-segment test (`re.IGNORECASE`). -/
def startsWithListCI : List Char → List Char → Bool
  | _, [] => true
  | [], _ :: _ => false
  | a :: t, b :: u => pyLowerChar a == pyLowerChar b && startsWithListCI t u

/-- `n, n-1, …, 0`: the order in which a greedy star releases
characters while backtracking. -/
def downRange (n : Nat) : List Nat := (List.range (n + 1)).reverse

/-- The capture `(.+?)(?:\n|$)`: lazy, at least one character, `.`
does not match a newline — so it is the text up to the first newline
(or the end), and fails when that text is empty. -/
def lazyCapture (s : List Char) : Option (List Char) :=
  match s with
  | [] => none
  | '\n' :: _ => none
  | _ => some (s.takeWhile fun c => c != '\n')

/-- The tail `\s*:?\s*(.+?)(?:\n|$)` of the starred-label pattern,
with faithful backtracking: both whitespace stars are greedy (tried
longest first) and the optional colon is tried consumed-first. -/
def tailMatch (t : List Char) : Option (List Char) :=
  (downRange (t.takeWhile pyWhitespace).length).findSome? fun j1 =>
    let t1 := t.drop j1
    let choices : List Bool :=
      match t1 with
      | ':' :: _ => [true, false]
      | _ => [false]
    choices.findSome? fun useColon =>
      let t2 := if useColon then t1.drop 1 else t1
      (downRange (t2.takeWhile pyWhitespace).length).findSome? fun j2 =>
        lazyCapture (t2.drop j2)

/-- One attempt of `\*\*Key[:\*]*\*\*\s*:?\s*(.+?)(?:\n|$)`
(IGNORECASE) at the current position.  The run of `[:\*]` characters
is released greedily until a literal `**` fits. -/
def matchStarLabelAt (key : List Char) (s : List Char) : Option (List Char) :=
  if startsWithListCI s ('*' :: '*' :: key) then
    let s1 := s.drop (2 + key.length)
    let run := s1.takeWhile fun c => c = ':' || c = '*'
    (downRange run.length).findSome? fun i =>
      match s1.drop i with
      | '*' :: '*' :: t => tailMatch t
      | _ => none
  else none

/-- `re.search` for the starred-label pattern: leftmost match. -/
def searchStarLabel (key : List Char) : Nat → List Char → Option (List Char)
  | 0, _ => none
  | _, [] => none
  | fuel + 1, s =>
    match matchStarLabelAt key s with
    | some v => some v
    | none =>
      match s with
      | [] => none
      | _ :: rest => searchStarLabel key fuel rest

/-- One attempt of the plain-line pattern after its `(?:^|\n)` anchor:
`\s*[-•]?\s*Key\s*:\s*(.+?)(?:\n|$)` (IGNORECASE).  The leading
whitespace and bullet are deterministic because the key starts with a
letter; the whitespace star before the capture backtracks. -/
def matchLineLabelAt (key : List Char) (s : List Char) : Option (List Char) :=
  let t1 := s.dropWhile pyWhitespace
  let t2 :=
    match t1 with
    | c :: r => if c = '-' || c = '•' then r else t1
    | [] => t1
  let t3 := t2.dropWhile pyWhitespace
  if startsWithListCI t3 key then
    let t4 := (t3.drop key.length).dropWhile pyWhitespace
    match t4 with
    | ':' :: t5 =>
      (downRange (t5.takeWhile pyWhitespace).length).findSome? fun j =>
        lazyCapture (t5.drop j)
    | _ => none
  else none

def searchLineLabelGo (key : List Char) : Nat → List Char → Option (List Char)
  | 0, _ => none
  | _, [] => none
  | fuel + 1, c :: rest =>
    if c = '\n' then
      match matchLineLabelAt key rest with
      | some v => some v
      | none => searchLineLabelGo key fuel rest
    else searchLineLabelGo key fuel rest

/-- `re.search` for the plain-line pattern: the `^` alternative at the
start of the string, then the `\n` alternative at every position. -/
def searchLineLabel (key : List Char) (s : List Char) : Option (List Char) :=
  match matchLineLabelAt key s with
  | some v => some v
  | none => searchLineLabelGo key s.length s

/-- First character class of `([A-ZÄÖÜ][a-zäöüß-]+)` under
IGNORECASE. -/
def isCatStart (c : Char) : Bool :=
  let l := pyLowerChar c
  ('a' ≤ l && l ≤ 'z') || l = 'ä' || l = 'ö' || l = 'ü'

/-- Second character class of the same group under IGNORECASE. -/
def isCatRest (c : Char) : Bool := isCatStart c || c = 'ß' || c = '-'

/-- One attempt of `Kategorie[:\s]+([A-ZÄÖÜ][a-zäöüß-]+)`
(IGNORECASE): the `[:\s]+` run is disjoint from the letter classes,
so greediness collapses to a maximal run of length at least one. -/
def matchCatWordAt (s : List Char) : Option (List Char) :=
  if startsWithListCI s "Kategorie".data then
    let t := s.drop 9
    let run := t.takeWhile fun c => c = ':' || pyWhitespace c
    if run.isEmpty then none
    else
      match t.drop run.length with
      | c :: r =>
        if isCatStart c then
          let w := r.takeWhile isCatRest
          if w.isEmpty then none else some (c :: w)
        else none
      | [] => none
  else none

def searchCatWord : Nat → List Char → Option (List Char)
  | 0, _ => none
  | _, [] => none
  | fuel + 1, s =>
    match matchCatWordAt s with
    | some v => some v
    | none =>
      match s with
      | [] => none
      | _ :: rest => searchCatWord fuel rest

/-- `re.sub(r"\s*\(.*\)\s*$", "", value)` for a newline-free value:
when the value (ignoring trailing whitespace) ends in `)` and an
opening `(` occurs before that `)`, everything from the whitespace
preceding the first such `(` onward is removed. -/
def stripParen (v : List Char) : List Char :=
  let core := (v.reverse.dropWhile pyWhitespace).reverse
  match core.getLast? with
  | some c =>
    if c = ')' then
      match v.findIdx? (fun d => d == '(') with
      | some j =>
        if j + 1 < core.length then
          ((v.take j).reverse.dropWhile pyWhitespace).reverse
        else v
      | none => v
    else v
  | none => v

/-- The value cleanup of the markdown fallback:
`.strip().strip("*").strip()` and removal of a trailing
parenthetical. -/
def cleanValue (v : List Char) : String :=
  ⟨stripParen (stripWhile pyWhitespace
    (stripWhile (fun c => c = '*') (stripWhile pyWhitespace v)))⟩

/-- The `kategorie` key of the markdown fallback: its three patterns
tried in order, first match wins. -/
def parse_markdown_kategorie (raw : List Char) : Option String :=
  match searchStarLabel "Kategorie".data raw.length raw with
  | some v => some (cleanValue v)
  | none =>
    match searchLineLabel "Kategorie".data raw with
    | some v => some (cleanValue v)
    | none =>
      match searchCatWord raw.length raw with
      | some v => some (cleanValue v)
      | none => none

/-- The `absender` key of the markdown fallback (two patterns). -/
def parse_markdown_absender (raw : List Char) : Option String :=
  match searchStarLabel "Absender".data raw.length raw with
  | some v => some (cleanValue v)
  | none =>
    match searchLineLabel "Absender".data raw with
    | some v => some (cleanValue v)
    | none => none

/-- The `patient` key of the markdown fallback (two patterns). -/
def parse_markdown_patient (raw : List Char) : Option String :=
  match searchStarLabel "Patient".data raw.length raw with
  | some v => some (cleanValue v)
  | none =>
    match searchLineLabel "Patient".data raw with
    | some v => some (cleanValue v)
    | none => none

/-- `_parse_markdown_response` from the source: build the result dict
key by key; succeed only when a truthy (non-empty) category value was
recovered. -/
def parse_markdown_response (raw : List Char) : Option Dict :=
  let result : Dict :=
    (match parse_markdown_kategorie raw with
     | some v => [("kategorie", v)]
     | none => []) ++
    (match parse_markdown_absender raw with
     | some v => [("absender", v)]
     | none => []) ++
    (match parse_markdown_patient raw with
     | some v => [("patient", v)]
     | none => [])
  match parse_markdown_kategorie raw with
  | some v => if v.data.isEmpty then none else some result
  | none => none

/-- The strategy chain of `parse_ollama_response`, returning the
first successfully decoded dict: direct JSON decode of the repaired
then the raw text, then every embedded JSON candidate of the repaired
then the raw text, then the markdown fallback on the raw text. -/
def extract_analysis_dict (raw : List Char) : Option Dict :=
  let cleaned := repairDoubleU2 (repairDoubleU1 raw)
  match jsonParseObject cleaned with
  | some d => some d
  | none =>
    match jsonParseObject raw with
    | some d => some d
    | none =>
      match (json_candidates cleaned ++ json_candidates raw).findSome?
          jsonParseObject with
      | some d => some d
      | none => parse_markdown_response raw

/-- `parse_ollama_response` from the source: every successful
strategy feeds its dict through `normalize_analysis`. -/
def parse_ollama_response (raw : String) (eigener_name : String) :
    Option Analysis :=
  (extract_analysis_dict raw.data).map fun d => normalize_analysis d eigener_name

/-- C3: the parser's strategies are tried in a fixed order with first
success winning; prose around a fenced JSON block still parses; a
response with no JSON but a `**Kategorie:**` line is recovered by the
markdown fallback with default sender and patient; pure prose with
none of the labels fails; and the markdown fallback succeeds only
when a (truthy) category value was recovered. -/
theorem C3_parser_chain :
    parse_ollama_response
      "Sure, here is the result:\n```json\n\x7b\"kategorie\":\"Labor\",\"absender\":\"Dr. X\",\"patient\":\"Meier\"\x7d\n```" "" =
      some ⟨"Labor", "Dr. X", "Meier"⟩ ∧
    parse_ollama_response "**Kategorie:** Arztbrief" "" =
      some ⟨"Arztbrief", "Unbekannt", ""⟩ ∧
    parse_ollama_response "Dies ist reiner Text ohne weitere Angaben." "" = none ∧
    (∀ (raw : List Char) (d : Dict), parse_markdown_response raw = some d →
      ∃ v, parse_markdown_kategorie raw = some v ∧ v ≠ "") := by
  refine ⟨by decide, by decide, by decide, ?_⟩
  intro raw d h
  unfold parse_markdown_response at h
  rcases hk : parse_markdown_kategorie raw with _ | v
  · rw [hk] at h
    simp at h
  · rw [hk] at h
    by_cases he : v.data.isEmpty
    · simp [he] at h
    · exact ⟨v, rfl, fun hc => he (by rw [hc]; rfl)⟩

/-- Witness for C3: the fallback-only-with-category clause applied at
a concrete markdown response. -/
theorem C3_parser_chain_witness :
    ∃ v, parse_markdown_kategorie "**Kategorie:** Arztbrief".data = some v ∧
      v ≠ "" :=
  C3_parser_chain.2.2.2 "**Kategorie:** Arztbrief".data
    [("kategorie", "Arztbrief")] (by decide)

theorem normalize_kategorie_cases (d : Dict) (e : String) :
    (normalize_analysis d e).kategorie = "Befund" ∨
    ((normalize_analysis d e).kategorie = (rawFields d).kategorie ∧
     isEmptyValue (rawFields d).kategorie = false) := by
  unfold normalize_analysis identityFiltered emptyNormalized
  dsimp only
  split
  · exact Or.inl rfl
  · next h => exact Or.inr ⟨rfl, by simpa using h⟩

theorem normalize_absender_cases (d : Dict) (e : String) :
    (normalize_analysis d e).absender = "Unbekannt" ∨
    ((normalize_analysis d e).absender = (rawFields d).absender ∧
     isEmptyValue (rawFields d).absender = false) := by
  unfold normalize_analysis identityFiltered emptyNormalized
  dsimp only
  split
  · exact Or.inl (by simp)
  · next h =>
    split
    · exact Or.inl rfl
    · exact Or.inr ⟨rfl, by simpa using h⟩

theorem normalize_nonempty (d : Dict) (e : String) :
    (normalize_analysis d e).kategorie ≠ "" ∧
    (normalize_analysis d e).absender ≠ "" := by
  constructor
  · rcases normalize_kategorie_cases d e with h | ⟨h, h2⟩
    · rw [h]; decide
    · rw [h]
      intro hc
      rw [hc] at h2
      exact absurd h2 (by decide)
  · rcases normalize_absender_cases d e with h | ⟨h, h2⟩
    · rw [h]; decide
    · rw [h]
      intro hc
      rw [hc] at h2
      exact absurd h2 (by decide)

/-- C10: whenever the response parser succeeds, the classification
carries exactly the three string fields of `Analysis`, the category
is non-empty (at worst the fallback `"Befund"`) and the sender is
non-empty (at worst the sentinel `"Unbekannt"`); only the patient may
be empty. -/
theorem C10_parse_invariant (raw e : String) (r : Analysis)
    (h : parse_ollama_response raw e = some r) :
    r.kategorie ≠ "" ∧ r.absender ≠ "" := by
  unfold parse_ollama_response at h
  rcases hx : extract_analysis_dict raw.data with _ | d
  · rw [hx] at h
    simp at h
  · rw [hx] at h
    simp only [Option.map_some'] at h
    have hr : normalize_analysis d e = r := Option.some.inj h
    rw [← hr]
    exact normalize_nonempty d e

/-- Witness for C10: the invariant applied at a concrete parsed
response. -/
theorem C10_parse_invariant_witness :
    (⟨"Labor", "Unbekannt", ""⟩ : Analysis).kategorie ≠ "" ∧
    (⟨"Labor", "Unbekannt", ""⟩ : Analysis).absender ≠ "" :=
  C10_parse_invariant "\x7b\"kategorie\": \"Labor\"\x7d" ""
    ⟨"Labor", "Unbekannt", ""⟩ (by decide)

end FaxFinity
